import Mathlib

/-!
Verification of the backup/replay/cold-storage orchestrator
(`rs/backup/src/backup_helper.rs`).

Strings are modelled as `List Char` (the relevant inputs are ASCII, so byte
positions and character positions coincide).  Filesystem directories are
modelled as finite lists of entry names; `BTreeMap` is modelled as a sorted
association list.  Fallible operations return `Except String`/`Option`, and
notifications are counted explicitly.
-/

namespace Backup

/-- Value of a single digit character, as in Rust `char::to_digit`:
decimal digits, then letters (either case) from 10 up. -/
def digitVal (c : Char) : Option Nat :=
  if '0' ≤ c ∧ c ≤ '9' then some (c.toNat - '0'.toNat)
  else if 'a' ≤ c ∧ c ≤ 'z' then some (c.toNat - 'a'.toNat + 10)
  else if 'A' ≤ c ∧ c ≤ 'Z' then some (c.toNat - 'A'.toNat + 10)
  else none

/-- Rust unsigned integer parsing (`u64::from_str_radix` / `str::parse`):
an optional leading plus sign, then at least one digit valid for the radix;
any other character, an empty digit string, or overflow past `bound`
(exclusive, e.g. `2 ^ 64` for `u64`) is an error. -/
def rustParseUnsigned (radix bound : Nat) (s : List Char) : Option Nat :=
  let digits := match s with
    | '+' :: t => t
    | _ => s
  if digits.isEmpty then none
  else
    match digits.foldl
      (fun acc c =>
        match acc, digitVal c with
        | some v, some d => if d < radix then some (v * radix + d) else none
        | _, _ => none)
      (some 0) with
    | some v => if v < bound then some v else none
    | none => none

/-- Embeds `height_from_dir_entry_radix`: parse a directory-entry name in the
given radix, unparsable names counting as height 0. -/
def height_from_name (radix : Nat) (s : List Char) : Nat :=
  (rustParseUnsigned radix (2 ^ 64) s).getD 0

/-- Embeds `last_dir_height`: the maximum parsed height over the entry names
of a directory, 0 for an empty or missing directory (the fold
`fold(0, max)` of the source). -/
def last_dir_height (names : List (List Char)) (radix : Nat) : Nat :=
  names.foldl (fun a b => max a (height_from_name radix b)) 0

/-- First index at which `needle` occurs in `hay` (Rust `str::find`). -/
def strFind (needle : List Char) : List Char → Option Nat
  | [] => if needle.isPrefixOf ([] : List Char) then some 0 else none
  | c :: t =>
    if needle.isPrefixOf (c :: t) then some 0
    else (strFind needle t).map (· + 1)

/-- Rust `str::trim`: whitespace stripped from both ends. -/
def trimChars (s : List Char) : List Char :=
  ((s.dropWhile Char.isWhitespace).reverse.dropWhile Char.isWhitespace).reverse

/-- The marker text preceding the requested version in the replay tool's
output. -/
def upgradePfx : List Char := "Please use the replay tool of version".toList

/-- The marker text following the requested version in the replay tool's
output. -/
def upgradeSfx : List Char := "to continue backup recovery from height".toList

/-- Embeds `check_upgrade_request`: scan the captured stdout for the upgrade
marker and extract the trimmed version token between the two marker texts;
the match is accepted only when enough characters remain after the marker
for a version token of at least 8 characters plus the closing marker. -/
def check_upgrade_request (stdout : List Char) : Option (List Char) :=
  match strFind upgradePfx stdout with
  | some pos =>
    if pos + upgradePfx.length + 8 + upgradeSfx.length < stdout.length then
      let pos2 := pos + upgradePfx.length
      match strFind upgradeSfx (stdout.drop pos2) with
      | some pos3 => some (trimChars ((stdout.drop pos2).take pos3))
      | none => none
    else none
  | none => none

/-- Helper for `splitWs`: accumulate the current word (reversed) while
scanning. -/
def splitWsAux : List Char → List Char → List (List Char)
  | [], acc => if acc.isEmpty then [] else [acc.reverse]
  | c :: t, acc =>
    if c.isWhitespace then
      if acc.isEmpty then splitWsAux t [] else acc.reverse :: splitWsAux t []
    else splitWsAux t (c :: acc)

/-- Rust `str::split_whitespace`: the maximal nonempty runs of
non-whitespace characters. -/
def splitWs (s : List Char) : List (List Char) :=
  splitWsAux s []

/-- Split on newline characters, keeping a (possibly empty) final segment. -/
def splitOnNl : List Char → List (List Char)
  | [] => [[]]
  | c :: t =>
    if c = '\n' then [] :: splitOnNl t
    else
      match splitOnNl t with
      | h :: r => (c :: h) :: r
      | [] => [[c]]

/-- Rust `str::lines`: split on newlines, drop an optional final line
terminator, and strip a trailing carriage return from each line. -/
def rustLines (s : List Char) : List (List Char) :=
  if s.isEmpty then []
  else
    let segs := if s.getLast? = some '\n' then (splitOnNl s).dropLast else splitOnNl s
    segs.map (fun l => if l.getLast? = some '\r' then l.dropLast else l)

/-- Embeds `get_disk_stats`: from the captured output of the disk-usage
command, take the last line, its whitespace-field number 4 (0-based), drop
the field's final character, and parse the rest as a `u32`; emit one warning
notification when the value reaches the warning threshold.  Returns the
result together with the number of warning notifications sent. -/
def get_disk_stats (warnThreshold : Nat)
    (execResult : Except String (Option (List Char))) :
    Except String Nat × Nat :=
  match execResult with
  | .error err => (.error ("Error fetching disk stats: " ++ err), 0)
  | .ok out =>
    let s := out.getD []
    let lastLine := ((rustLines s).getLast?).getD []
    match (splitWs lastLine).get? 4 with
    | some val =>
      match rustParseUnsigned 10 (2 ^ 32) val.dropLast with
      | some n => (.ok n, if warnThreshold ≤ n then 1 else 0)
      | none => (.error "Error converting number", 0)
    | none => (.error "Error converting disk stats", 0)

/-- BUCKET_SIZE constant of the source. -/
def BUCKET_SIZE : Nat := 10000

/-- A replica-version directory in the spool: its name and its entries, each
entry being a (bucket-directory name, height-directory names) pair. -/
structure SpoolVersionDir where
  name : List Char
  entries : List (List Char × List (List Char))

/-- Embeds `fetch_top_height`: the maximal base-10 bucket name, then the
maximal base-10 height name inside the directory named by that maximal
bucket value (0 when no directory carries exactly that decimal name). -/
def fetch_top_height (d : SpoolVersionDir) : Nat :=
  let heightBucket := last_dir_height (d.entries.map Prod.fst) 10
  match d.entries.find? (fun e => e.1 == (Nat.repr heightBucket).toList) with
  | some e => last_dir_height e.2 10
  | none => 0

/-- Embeds `is_height_in_spool`: existence of the path
`<bucket>/<height>` under the replica-version directory, where
`bucket = height / BUCKET_SIZE * BUCKET_SIZE`. -/
def is_height_in_spool (d : SpoolVersionDir) (height : Nat) : Bool :=
  match d.entries.find? (fun e => e.1 == (Nat.repr (height / BUCKET_SIZE * BUCKET_SIZE)).toList) with
  | some e => e.2.contains ((Nat.repr height).toList)
  | none => false

/-- Modelled from the spec: `ReplicaVersion::try_from` is not among the
sources under verification; the spec only says a replica version "parses
from/serializes to a canonical string token", so any nonempty token is
accepted here.  No claim settled below depends on which tokens are
accepted. -/
def replicaVersionParse (s : List Char) : Option (List Char) :=
  if s.isEmpty then none else some s

/-- Embeds `retrieve_replica_version`: none when the spool directory is
missing, unreadable or empty, or when the local checkpoint height is 0;
otherwise the parseable spool version whose artifact tree contains the
checkpoint height and has the greatest top height. -/
def retrieve_replica_version (spoolDirExists : Bool)
    (readSpool : Except String (List SpoolVersionDir)) (lastCkpt : Nat) :
    Option (List Char) :=
  if !spoolDirExists then none
  else
    match readSpool with
    | .error _ => none
    | .ok spoolDirs =>
      if spoolDirs.isEmpty then none
      else if lastCkpt == 0 then none
      else
        (spoolDirs.foldl
          (fun acc d =>
            let rv := replicaVersionParse d.name
            if is_height_in_spool d lastCkpt && rv.isSome then
              if acc.1 < fetch_top_height d then (fetch_top_height d, rv) else acc
            else acc)
          ((0 : Nat), (none : Option (List Char)))).2

/-- Embeds the version choice at the start of `replay`: the retrieved
version, or the configured initial replica version when none was found. -/
def replay_start_version (retrieved : Option (List Char))
    (initialVersion : List Char) : List Char :=
  retrieved.getD initialVersion

/-- Observable effects of the tail of `replay()` (after the replay loop):
whether and with which height `archive_state` was called, which success
message and metrics were pushed, and whether the no-progress failure
notification was sent. -/
structure ReplayFinishEvents where
  archiveCall : Option Nat
  successMessage : Option Nat
  replayTimeMetric : Option Nat
  restoredHeightMetric : Option Nat
  noProgressFailure : Bool
deriving DecidableEq

/-- Embeds the tail of `replay()`: compare the final checkpoint height with
the starting one; archive and report on progress, otherwise send the
no-progress failure notification. -/
def replay_finish (startHeight finishHeight : Nat) (archiveOk : Bool)
    (elapsedMinutes : Nat) : ReplayFinishEvents :=
  if startHeight < finishHeight then
    if archiveOk then
      ⟨some finishHeight, some finishHeight, some elapsedMinutes,
        some finishHeight, false⟩
    else ⟨some finishHeight, none, none, none, false⟩
  else ⟨none, none, none, none, true⟩

/-- The bucket computation of `download_binaries`
(`start_height - start_height % 10000`). -/
def bucketGate (h : Nat) : Nat := h - h % 10000

/-- The bucket computation of `is_height_in_spool`
(`height / BUCKET_SIZE * BUCKET_SIZE`). -/
def bucketSpool (h : Nat) : Nat := h / BUCKET_SIZE * BUCKET_SIZE

/-- The spool-relative path whose existence gates `download_binaries`
(the `cup_file` format string). -/
def cupGatePath (version : List Char) (h : Nat) : List (List Char) :=
  [version, (Nat.repr (bucketGate h)).toList, (Nat.repr h).toList,
    "catch_up_package.bin".toList]

/-- The spool-relative path whose existence `is_height_in_spool` tests. -/
def spoolContainmentPath (version : List Char) (h : Nat) : List (List Char) :=
  [version, (Nat.repr (bucketSpool h)).toList, (Nat.repr h).toList]

/-- Modelled from the spec: the path the spec claims both checks test,
namely `<version>/bucket(h)/h/catch_up_package`, for comparison with the
paths actually computed by the code. -/
def claimedCupPath (version : List Char) (h : Nat) : List (List Char) :=
  [version, (Nat.repr (h - h % 10000)).toList, (Nat.repr h).toList,
    "catch_up_package".toList]

/-- Embeds the pruning part of `archive_state`, acting on the names of the
copied checkpoints directory (`none` models a missing directory after the
copy): determine the maximal base-16 height, fail when it is 0, and delete
every subdirectory whose parsed height is neither 0 nor that maximum;
returns the names that remain. -/
def archive_state_prune (checkpointNames : Option (List (List Char))) :
    Except String (List (List Char)) :=
  match checkpointNames with
  | none => .error "Archiving didn't succeed - missing checkpoints directory"
  | some names =>
    let archivedCheckpoint := last_dir_height names 16
    if archivedCheckpoint = 0 then .error "No proper archived checkpoint"
    else
      .ok (names.filter (fun n =>
        height_from_name 16 n == 0 || height_from_name 16 n == archivedCheckpoint))

/-- Insertion into a `BTreeMap Nat _` modelled as an ascending association
list; an equal key replaces the stored value. -/
def btreeInsert (k : Nat) (v : List Char) :
    List (Nat × List Char) → List (Nat × List Char)
  | [] => [(k, v)]
  | e :: t =>
    if k < e.1 then (k, v) :: e :: t
    else if k = e.1 then (k, v) :: t
    else e :: btreeInsert k v t

/-- The `dir_heights` map of `do_move_cold_storage`: top height of each
spool version directory mapped to the directory (colliding top heights
deduplicate). -/
def dir_heights_map (dirs : List SpoolVersionDir) : List (Nat × List Char) :=
  dirs.foldl (fun m d => btreeInsert (fetch_top_height d) d.name m) []

/-- Embeds `need_cold_storage_move`: the number of spool version
directories exceeds the configured hot-version count. -/
def need_cold_storage_move (dirs : List SpoolVersionDir) (versionsHot : Nat) : Bool :=
  decide (versionsHot < dirs.length)

/-- Embeds the spool half of `do_move_cold_storage`: the
`to_clean = dir_heights.len() - versions_hot` smallest entries of the
height map are moved out of the spool; returns them together with the
`max_height` accumulated over the moved entries. -/
def spool_cold_phase (dirs : List SpoolVersionDir) (versionsHot : Nat) :
    List (Nat × List Char) × Nat :=
  let m := dir_heights_map dirs
  let moved := m.take (m.length - versionsHot)
  (moved, moved.foldl (fun mx e => max mx e.1) 0)

/-- The `old_state_dirs` map of `do_move_cold_storage`: archive directory
names parsed as base-10 heights, filtered to heights at most `max_height`. -/
def old_state_dirs (archiveDirNames : List (List Char)) (maxHeight : Nat) :
    List (Nat × List Char) :=
  archiveDirNames.foldl
    (fun m name =>
      let height := height_from_name 10 name
      if height ≤ maxHeight then btreeInsert height name m else m)
    []

/-- The descending copy selection of `do_move_cold_storage`: after each
copied entry, `daily_replays - 1` further entries are skipped
(`reversed.nth(self.daily_replays - 2)` consumes that many) whenever
`daily_replays > 1`. -/
def copyStride (dailyReplays : Nat) :
    List (Nat × List Char) → List (Nat × List Char)
  | [] => []
  | d :: rest =>
    d :: copyStride dailyReplays
      (if 1 < dailyReplays then rest.drop (dailyReplays - 1) else rest)
termination_by l => l.length
decreasing_by
  simp only [List.length_cons]
  split
  · simp only [List.length_drop]
    omega
  · omega

/-- Observable effects of the archive half of `do_move_cold_storage`: which
entries were copied to the cold-storage states directory, which were moved
to trash, and whether the trash directory was removed at the end. -/
structure ColdPassArchive where
  copiedToCold : List (Nat × List Char)
  movedToTrash : List (Nat × List Char)
  trashDirRemoved : Bool

/-- Embeds the archive half of `do_move_cold_storage`: build
`old_state_dirs`, copy a descending stride selection to cold storage when
cold storage is enabled, move every map entry to trash, and remove the
trash directory. -/
def archive_cold_phase (archiveDirNames : List (List Char))
    (maxHeight dailyReplays : Nat) (doColdStorage : Bool) : ColdPassArchive :=
  let m := old_state_dirs archiveDirNames maxHeight
  ⟨if doColdStorage then copyStride dailyReplays m.reverse else [], m, true⟩

/-- True when some attempt of the retry loop succeeds (the loop returns at
the first successful attempt). -/
def firstSuccess : List Bool → Bool
  | [] => false
  | a :: t => a || firstSuccess t

/-- Outcome of `rsync_config`: whether the config file was written and how
many failure notifications were sent. -/
structure RsyncConfigOutcome where
  configWritten : Bool
  failureNotifs : Nat
deriving DecidableEq

/-- Embeds `rsync_config`: up to `RETRIES_RSYNC_HOST = 5` remote-copy
attempts; on total failure it logs, sends one failure notification, and
returns unit — the failure is swallowed. -/
def rsync_config (attempts : List Bool) : RsyncConfigOutcome :=
  if firstSuccess (attempts.take 5) then ⟨true, 0⟩ else ⟨false, 1⟩

/-- Embeds `download_binary`: nothing to do when the binary is present;
otherwise up to `RETRIES_BINARY_DOWNLOAD = 3` attempts, and on exhaustion
one failure notification and an error. -/
def download_binary (present : Bool) (attempts : List Bool) :
    Except String Unit × Nat :=
  if present then (.ok (), 0)
  else if firstSuccess (attempts.take 3) then (.ok (), 0)
  else (.error "binary download failed", 1)

/-- Environment of one `download_binaries` call: CUP availability, local
presence and download-attempt outcomes for the three binaries, local config
presence, the node-discovery result, and the config remote-copy attempt
outcomes. -/
structure BinEnv where
  cupPresent : Bool
  replayPresent : Bool
  replayAttempts : List Bool
  launcherPresent : Bool
  launcherAttempts : List Bool
  sandboxPresent : Bool
  sandboxAttempts : List Bool
  configPresent : Bool
  nodesResult : Except String (List Nat)
  configAttempts : List Bool

/-- Outcome of `download_binaries`: the returned result, whether the
per-version config file is on disk afterwards, and the number of failure
notifications sent. -/
structure BinOutcome where
  result : Except String Unit
  configOnDisk : Bool
  failureNotifs : Nat

/-- Embeds `download_binaries`: gate on the CUP artifact (`none` models the
unbounded poll never returning), download the three binaries, then — when
the config file is absent — pick a node and call `rsync_config`, whose
failure is swallowed. -/
def download_binaries (env : BinEnv) : Option BinOutcome :=
  if env.cupPresent then
    match download_binary env.replayPresent env.replayAttempts with
    | (.error e, n) => some ⟨.error e, env.configPresent, n⟩
    | (.ok _, n1) =>
      match download_binary env.launcherPresent env.launcherAttempts with
      | (.error e, n) => some ⟨.error e, env.configPresent, n1 + n⟩
      | (.ok _, n2) =>
        match download_binary env.sandboxPresent env.sandboxAttempts with
        | (.error e, n) => some ⟨.error e, env.configPresent, n1 + n2 + n⟩
        | (.ok _, n3) =>
          if env.configPresent then some ⟨.ok (), true, n1 + n2 + n3⟩
          else
            match env.nodesResult with
            | .ok nodes =>
              match nodes.head? with
              | some _ =>
                let rc := rsync_config env.configAttempts
                some ⟨.ok (), rc.configWritten, n1 + n2 + n3 + rc.failureNotifs⟩
              | none => some ⟨.error "Error getting first node.", false, n1 + n2 + n3⟩
            | .error _ =>
              some ⟨.error "Error fetching subnet node list", false, n1 + n2 + n3⟩
  else none

/-- Concrete replay-tool stdout containing the upgrade marker. -/
def c4Stdout : List Char :=
  ("Some text before. Please use the replay tool of version 1.2.3-abcdef01 to continue backup recovery from height 500. More text.").toList

/-- Concrete disk-usage command output whose last line ends in "81% /data". -/
def dfOutput : List Char :=
  ("Filesystem     1K-blocks     Used Available Use% Mounted on\n/dev/sda1      102400000 80000000 22400000  81% /data").toList

/-- The last line of `dfOutput`. -/
def dfLastLine : List Char :=
  ("/dev/sda1      102400000 80000000 22400000  81% /data").toList

/-- Checkpoint directory names containing a name ("zz") that does not parse
in base 16. -/
def c1CexNames : List (List Char) := ["a".toList, "5".toList, "zz".toList]

/-- Checkpoint directory names that all parse to nonzero distinct base-16
heights. -/
def c1WitnessNames : List (List Char) := ["1".toList, "2".toList, "3".toList]

/-- Three spool version directories that are all empty, hence share top
height 0. -/
def c9CexDirs : List SpoolVersionDir :=
  [⟨"w1".toList, []⟩, ⟨"w2".toList, []⟩, ⟨"w3".toList, []⟩]

/-- Three spool version directories with pairwise-distinct top heights
5, 7 and 9. -/
def c3SpoolDirs : List SpoolVersionDir :=
  [⟨"v1".toList, [("0".toList, ["5".toList])]⟩,
   ⟨"v2".toList, [("0".toList, ["7".toList])]⟩,
   ⟨"v3".toList, [("0".toList, ["9".toList])]⟩]

/-- Nine archive directory names with base-10 heights 10, 20, ..., 90. -/
def c2Names : List (List Char) :=
  ["10".toList, "20".toList, "30".toList, "40".toList, "50".toList,
   "60".toList, "70".toList, "80".toList, "90".toList]

/-- Concrete `download_binaries` environment: CUP present, all three
binaries present, config absent, one discovered node, and five failing
config remote-copy attempts. -/
def c10Env : BinEnv :=
  ⟨true, true, [], true, [], true, [], false, .ok [1],
   [false, false, false, false, false]⟩

/-! ### Helper lemmas -/

theorem le_foldl_max (l : List Nat) (a : Nat) : a ≤ l.foldl max a := by
  induction l generalizing a with
  | nil => exact Nat.le_refl a
  | cons b t ih => exact Nat.le_trans (Nat.le_max_left a b) (ih (max a b))

theorem mem_le_foldl_max (l : List Nat) (a x : Nat) (hx : x ∈ l) :
    x ≤ l.foldl max a := by
  induction l generalizing a with
  | nil => cases hx
  | cons b t ih =>
    rcases List.mem_cons.mp hx with h | h
    · subst h
      exact Nat.le_trans (Nat.le_max_right a x) (le_foldl_max t (max a x))
    · exact ih (max a b) h

theorem foldl_max_or_mem (l : List Nat) (a : Nat) :
    l.foldl max a = a ∨ l.foldl max a ∈ l := by
  induction l generalizing a with
  | nil => exact Or.inl rfl
  | cons b t ih =>
    rcases ih (max a b) with h | h
    · rcases Nat.le_total a b with hab | hab
      · right
        rw [List.foldl_cons, h, Nat.max_eq_right hab]
        exact List.mem_cons_self b t
      · left
        rw [List.foldl_cons, h, Nat.max_eq_left hab]
    · right
      exact List.mem_cons_of_mem b h

theorem foldl_max_zero_mem (l : List Nat) (hne : l ≠ []) : l.foldl max 0 ∈ l := by
  rcases foldl_max_or_mem l 0 with h | h
  · cases l with
    | nil => exact absurd rfl hne
    | cons b t =>
      have hb : b ≤ 0 := by
        have := mem_le_foldl_max (b :: t) 0 b (List.mem_cons_self b t)
        omega
      have hb0 : b = 0 := Nat.le_antisymm hb (Nat.zero_le b)
      rw [h, ← hb0]
      exact List.mem_cons_self b t
  · exact h

theorem last_dir_height_eq_foldl (names : List (List Char)) (radix : Nat) :
    last_dir_height names radix
      = (names.map (height_from_name radix)).foldl max 0 := by
  rw [List.foldl_map]
  rfl

theorem mem_btreeInsert (k : Nat) (v : List Char) (l : List (Nat × List Char))
    (x : Nat × List Char) : x ∈ btreeInsert k v l → x = (k, v) ∨ x ∈ l := by
  induction l with
  | nil =>
    intro hx
    simp only [btreeInsert] at hx
    rcases List.mem_cons.mp hx with h | h
    · exact Or.inl h
    · cases h
  | cons e t ih =>
    intro hx
    simp only [btreeInsert] at hx
    by_cases h1 : k < e.1
    · rw [if_pos h1] at hx
      rcases List.mem_cons.mp hx with h | h
      · exact Or.inl h
      · exact Or.inr h
    · rw [if_neg h1] at hx
      by_cases h2 : k = e.1
      · rw [if_pos h2] at hx
        rcases List.mem_cons.mp hx with h | h
        · exact Or.inl h
        · exact Or.inr (List.mem_cons_of_mem e h)
      · rw [if_neg h2] at hx
        rcases List.mem_cons.mp hx with h | h
        · exact Or.inr (h ▸ List.mem_cons_self e t)
        · rcases ih h with h3 | h3
          · exact Or.inl h3
          · exact Or.inr (List.mem_cons_of_mem e h3)

theorem btreeInsert_pairwise (k : Nat) (v : List Char)
    (l : List (Nat × List Char))
    (hl : l.Pairwise (fun a b => a.1 < b.1)) :
    (btreeInsert k v l).Pairwise (fun a b => a.1 < b.1) := by
  induction l with
  | nil => simp [btreeInsert]
  | cons e t ih =>
    rw [List.pairwise_cons] at hl
    obtain ⟨he, ht⟩ := hl
    simp only [btreeInsert]
    by_cases h1 : k < e.1
    · rw [if_pos h1]
      refine List.Pairwise.cons ?_ (List.Pairwise.cons he ht)
      intro x hx
      rcases List.mem_cons.mp hx with h | h
      · rw [h]; exact h1
      · exact Nat.lt_trans h1 (he x h)
    · rw [if_neg h1]
      by_cases h2 : k = e.1
      · rw [if_pos h2]
        refine List.Pairwise.cons ?_ ht
        intro x hx
        rw [h2]
        exact he x hx
      · rw [if_neg h2]
        refine List.Pairwise.cons ?_ (ih ht)
        intro x hx
        rcases mem_btreeInsert k v t x hx with h | h
        · rw [h]; omega
        · exact he x h

theorem btreeInsert_keys_perm (k : Nat) (v : List Char)
    (l : List (Nat × List Char)) (hk : k ∉ l.map Prod.fst) :
    List.Perm ((btreeInsert k v l).map Prod.fst) (k :: l.map Prod.fst) := by
  induction l with
  | nil => simp [btreeInsert]
  | cons e t ih =>
    simp only [List.map_cons, List.mem_cons] at hk
    push_neg at hk
    obtain ⟨hke, hkt⟩ := hk
    simp only [btreeInsert]
    by_cases h1 : k < e.1
    · rw [if_pos h1]
      simp
    · rw [if_neg h1, if_neg hke]
      simp only [List.map_cons]
      exact ((ih hkt).cons e.1).trans (List.Perm.swap k e.1 (t.map Prod.fst))

theorem foldl_btreeInsert_pairwise (f : SpoolVersionDir → Nat)
    (ds : List SpoolVersionDir) (acc : List (Nat × List Char))
    (hacc : acc.Pairwise (fun a b => a.1 < b.1)) :
    (ds.foldl (fun m d => btreeInsert (f d) d.name m) acc).Pairwise
      (fun a b => a.1 < b.1) := by
  induction ds generalizing acc with
  | nil => exact hacc
  | cons d t ih =>
    exact ih (btreeInsert (f d) d.name acc) (btreeInsert_pairwise _ _ _ hacc)

theorem dir_heights_map_pairwise (dirs : List SpoolVersionDir) :
    (dir_heights_map dirs).Pairwise (fun a b => a.1 < b.1) :=
  foldl_btreeInsert_pairwise fetch_top_height dirs [] List.Pairwise.nil

theorem old_state_dirs_foldl_pairwise (ns : List (List Char)) (maxH : Nat)
    (acc : List (Nat × List Char))
    (hacc : acc.Pairwise (fun a b => a.1 < b.1)) :
    (ns.foldl
      (fun m name =>
        let height := height_from_name 10 name
        if height ≤ maxH then btreeInsert height name m else m) acc).Pairwise
      (fun a b => a.1 < b.1) := by
  induction ns generalizing acc with
  | nil => exact hacc
  | cons n t ih =>
    simp only [List.foldl_cons]
    by_cases h : height_from_name 10 n ≤ maxH
    · simp only [if_pos h]
      exact ih _ (btreeInsert_pairwise _ _ _ hacc)
    · simp only [if_neg h]
      exact ih _ hacc

theorem old_state_dirs_pairwise (ns : List (List Char)) (maxH : Nat) :
    (old_state_dirs ns maxH).Pairwise (fun a b => a.1 < b.1) :=
  old_state_dirs_foldl_pairwise ns maxH [] List.Pairwise.nil

theorem foldl_btreeInsert_keys_perm (f : SpoolVersionDir → Nat)
    (ds : List SpoolVersionDir) (acc : List (Nat × List Char))
    (hnd : (ds.map f ++ acc.map Prod.fst).Nodup) :
    List.Perm ((ds.foldl (fun m d => btreeInsert (f d) d.name m) acc).map Prod.fst)
      (acc.map Prod.fst ++ ds.map f) := by
  induction ds generalizing acc with
  | nil => simp
  | cons d t ih =>
    simp only [List.map_cons, List.cons_append, List.nodup_cons] at hnd
    obtain ⟨hd, hnd'⟩ := hnd
    have hdacc : f d ∉ acc.map Prod.fst := fun h =>
      hd (List.mem_append_right _ h)
    have hperm : List.Perm ((btreeInsert (f d) d.name acc).map Prod.fst)
        (f d :: acc.map Prod.fst) := btreeInsert_keys_perm _ _ _ hdacc
    have hnod3 : (f d :: (t.map f ++ acc.map Prod.fst)).Nodup :=
      List.nodup_cons.mpr ⟨hd, hnd'⟩
    have hp1 : List.Perm (t.map f ++ (btreeInsert (f d) d.name acc).map Prod.fst)
        (f d :: (t.map f ++ acc.map Prod.fst)) :=
      (List.Perm.append_left (t.map f) hperm).trans List.perm_middle
    have hnd2 : (t.map f ++ (btreeInsert (f d) d.name acc).map Prod.fst).Nodup :=
      List.Perm.nodup hp1.symm hnod3
    simp only [List.foldl_cons]
    refine (ih _ hnd2).trans ?_
    exact (List.Perm.append_right (t.map f) hperm).trans List.perm_middle.symm

theorem dir_heights_map_keys_perm (dirs : List SpoolVersionDir)
    (hnd : (dirs.map fetch_top_height).Nodup) :
    List.Perm ((dir_heights_map dirs).map Prod.fst) (dirs.map fetch_top_height) := by
  have h := foldl_btreeInsert_keys_perm fetch_top_height dirs [] (by simpa using hnd)
  simpa [dir_heights_map] using h

theorem dir_heights_map_length (dirs : List SpoolVersionDir)
    (hnd : (dirs.map fetch_top_height).Nodup) :
    (dir_heights_map dirs).length = dirs.length := by
  have h := (dir_heights_map_keys_perm dirs hnd).length_eq
  simpa using h

theorem filter_single_of_nodup_map (l : List (List Char))
    (f : List Char → Nat) (M : Nat) (hnd : (l.map f).Nodup)
    (hM : M ∈ l.map f) :
    ∃ n, l.filter (fun x => f x == M) = [n] ∧ f n = M := by
  induction l with
  | nil => cases hM
  | cons a t ih =>
    simp only [List.map_cons, List.nodup_cons] at hnd
    obtain ⟨ha, hndt⟩ := hnd
    rcases List.mem_cons.mp hM with h | h
    · refine ⟨a, ?_, h.symm⟩
      have hfa : (f a == M) = true := beq_iff_eq.mpr h.symm
      have hft : t.filter (fun x => f x == M) = [] := by
        rw [List.filter_eq_nil_iff]
        intro x hx hfx
        exact ha (h ▸ (beq_iff_eq.mp hfx) ▸ List.mem_map_of_mem f hx)
      simp [List.filter_cons, hfa, hft]
    · have hfa : (f a == M) = false := by
        rw [beq_eq_false_iff_ne]
        intro hEq
        exact ha (hEq ▸ h)
      rw [List.filter_cons, if_neg (by simp [hfa])]
      exact ih hndt h

theorem isPrefixOf_length_le (a b : List Char) (h : a.isPrefixOf b = true) :
    a.length ≤ b.length := by
  have hp : a <+: b := List.isPrefixOf_iff_prefix.mp h
  exact hp.length_le

theorem strFind_isPrefixOf (needle hay : List Char) (p : Nat)
    (h : strFind needle hay = some p) :
    needle.isPrefixOf (hay.drop p) = true := by
  induction hay generalizing p with
  | nil =>
    simp only [strFind] at h
    by_cases hp : needle.isPrefixOf ([] : List Char)
    · rw [if_pos hp] at h
      cases h
      simpa using hp
    · rw [if_neg hp] at h
      cases h
  | cons c t ih =>
    simp only [strFind] at h
    by_cases hp : needle.isPrefixOf (c :: t)
    · rw [if_pos hp] at h
      cases h
      simpa using hp
    · rw [if_neg hp] at h
      cases hq : strFind needle t with
      | none => rw [hq] at h; cases h
      | some q =>
        rw [hq] at h
        cases h
        exact ih q hq

/-! ### Claim theorems -/

set_option maxRecDepth 8192 in
/-- C4: `check_upgrade_request` applied to a stdout containing the upgrade
marker around " 1.2.3-abcdef01 " returns exactly "1.2.3-abcdef01"; applied
to any string not containing the marker text it returns no match; and
applied to a string containing the marker text but with insufficient
trailing length it returns no match. -/
theorem C4_check_upgrade_request :
    check_upgrade_request c4Stdout = some "1.2.3-abcdef01".toList
    ∧ (∀ s : List Char,
        (∀ i : Nat, upgradePfx.isPrefixOf (s.drop i) = false) →
        check_upgrade_request s = none)
    ∧ (∀ (s : List Char) (pos : Nat), strFind upgradePfx s = some pos →
        s.length ≤ pos + upgradePfx.length + 8 + upgradeSfx.length →
        check_upgrade_request s = none) := by
  refine ⟨by decide, ?_, ?_⟩
  · intro s h
    cases hf : strFind upgradePfx s with
    | none => simp [check_upgrade_request, hf]
    | some p =>
      have hp := strFind_isPrefixOf upgradePfx s p hf
      rw [h p] at hp
      cases hp
  · intro s pos hf hlen
    simp only [check_upgrade_request, hf]
    rw [if_neg (by omega)]

/-- C4 witness: the general parts of `C4_check_upgrade_request` applied at
the concrete strings "hello" (no marker) and the bare marker text itself
(insufficient trailing length). -/
theorem C4_check_upgrade_request_witness :
    check_upgrade_request ("hello").toList = none
    ∧ check_upgrade_request upgradePfx = none := by
  constructor
  · apply C4_check_upgrade_request.2.1
    intro i
    cases hb : upgradePfx.isPrefixOf ((("hello").toList).drop i) with
    | false => rfl
    | true =>
      have h1 := isPrefixOf_length_le _ _ hb
      rw [List.length_drop] at h1
      have h2 : upgradePfx.length = 37 := by decide
      have h3 : (("hello").toList).length = 5 := by decide
      exact ((by omega : False)).elim
  · exact C4_check_upgrade_request.2.2 upgradePfx 0 (by decide) (by decide)

/-- C5 counterexample: at version "A" and height 42, neither the CUP gate
path of `download_binaries` (which ends in "catch_up_package.bin") nor the
path tested by `is_height_in_spool` (which has no artifact component at
all) equals the path `<version>/bucket(h)/h/catch_up_package` claimed by
the spec. -/
theorem C5_counterexample :
    cupGatePath ("A").toList 42 ≠ claimedCupPath ("A").toList 42
    ∧ spoolContainmentPath ("A").toList 42 ≠ claimedCupPath ("A").toList 42 := by
  constructor
  · decide
  · decide

/-- C5 (amended): for every height the two bucket computations agree,
`bucket(h) = h - h % 10000 = h / 10000 * 10000`; the CUP readiness gate of
`download_binaries` tests `<version>/bucket(h)/h/catch_up_package.bin`,
which is the containment path `<version>/bucket(h)/h` tested by
`is_height_in_spool` extended by the artifact component
"catch_up_package.bin". -/
theorem C5_amended_buckets_and_paths (version : List Char) (h : Nat) :
    bucketGate h = bucketSpool h
    ∧ cupGatePath version h
        = spoolContainmentPath version h ++ [("catch_up_package.bin").toList] := by
  have hb : bucketGate h = bucketSpool h := by
    simp only [bucketGate, bucketSpool, BUCKET_SIZE]
    omega
  exact ⟨hb, by simp [cupGatePath, spoolContainmentPath, hb]⟩

/-- C6: after the replay loop, if the final checkpoint height did not
strictly advance, `archive_state` is never called and the no-progress
failure notification is sent; if it advanced, `archive_state` is called
with the new height and, on its success, the elapsed minutes and the
restored height are reported. -/
theorem C6_replay_finish (startH finishH : Nat) (archiveOk : Bool)
    (minutes : Nat) :
    (finishH ≤ startH →
      (replay_finish startH finishH archiveOk minutes).archiveCall = none
      ∧ (replay_finish startH finishH archiveOk minutes).noProgressFailure = true)
    ∧ (startH < finishH →
      (replay_finish startH finishH archiveOk minutes).archiveCall = some finishH
      ∧ (replay_finish startH finishH archiveOk minutes).noProgressFailure = false
      ∧ (archiveOk = true →
          (replay_finish startH finishH archiveOk minutes).successMessage
            = some finishH
          ∧ (replay_finish startH finishH archiveOk minutes).replayTimeMetric
            = some minutes
          ∧ (replay_finish startH finishH archiveOk minutes).restoredHeightMetric
            = some finishH)) := by
  constructor
  · intro hle
    rw [replay_finish, if_neg (by omega)]
    exact ⟨rfl, rfl⟩
  · intro hlt
    rw [replay_finish, if_pos hlt]
    cases archiveOk with
    | false => exact ⟨rfl, rfl, by intro h; cases h⟩
    | true => exact ⟨rfl, rfl, by intro h; exact ⟨rfl, rfl, rfl⟩⟩

/-- C6 witness: `C6_replay_finish` applied at no-progress (5 → 3) and at a
successful advance (3 → 5) with a successful archive call. -/
theorem C6_replay_finish_witness :
    (replay_finish 5 3 true 7).archiveCall = none
    ∧ (replay_finish 5 3 true 7).noProgressFailure = true
    ∧ (replay_finish 3 5 true 7).archiveCall = some 5
    ∧ (replay_finish 3 5 true 7).successMessage = some 5
    ∧ (replay_finish 3 5 true 7).replayTimeMetric = some 7
    ∧ (replay_finish 3 5 true 7).restoredHeightMetric = some 5 := by
  have h1 := (C6_replay_finish 5 3 true 7).1 (by omega)
  have h2 := (C6_replay_finish 3 5 true 7).2 (by omega)
  have h3 := h2.2.2 rfl
  exact ⟨h1.1, h1.2, h2.1, h3.1, h3.2.1, h3.2.2⟩

/-- C7: whenever the local checkpoint height is 0,
`retrieve_replica_version` returns none regardless of the spool state — in
particular for a spool holding only version "A" with an artifact at bucket
0, height 42 — and `replay` then falls back to the configured initial
replica version. -/
theorem C7_retrieve_replica_version_zero :
    (∀ (spoolDirExists : Bool)
        (readSpool : Except String (List SpoolVersionDir))
        (initialVersion : List Char),
      retrieve_replica_version spoolDirExists readSpool 0 = none
      ∧ replay_start_version
          (retrieve_replica_version spoolDirExists readSpool 0) initialVersion
          = initialVersion)
    ∧ retrieve_replica_version true
        (.ok [⟨("A").toList, [(("0").toList, [("42").toList])]⟩]) 0 = none := by
  constructor
  · intro se rs init
    have h1 : retrieve_replica_version se rs 0 = none := by
      cases se with
      | false => rfl
      | true =>
        cases rs with
        | error e => rfl
        | ok dirs =>
          by_cases hd : dirs.isEmpty <;>
            simp [retrieve_replica_version, hd]
    exact ⟨h1, by rw [h1]; rfl⟩
  · rfl

/-- C8: on disk-usage output whose last line is a df data line with fields
ending in "81% /data", with warning threshold 80, `get_disk_stats` returns
the percentage 81 (field number 4 of the last line, unit suffix stripped,
parsed as an integer) and emits exactly one warning notification. -/
theorem C8_get_disk_stats (s ll f0 f1 f2 f3 : List Char)
    (hlast : (rustLines s).getLast? = some ll)
    (hfields : splitWs ll
      = [f0, f1, f2, f3, ("81%").toList, ("/data").toList]) :
    get_disk_stats 80 (.ok (some s)) = (.ok 81, 1) := by
  have hget : ([f0, f1, f2, f3, ("81%").toList, ("/data").toList]
      : List (List Char)).get? 4 = some (("81%").toList) := rfl
  have hp : rustParseUnsigned 10 (2 ^ 32) ((("81%").toList).dropLast)
      = some 81 := by decide
  simp only [get_disk_stats, Option.getD, hlast, hfields, hget, hp]
  rfl

/-- C8 witness: `C8_get_disk_stats` at the concrete df output `dfOutput`. -/
theorem C8_get_disk_stats_witness :
    get_disk_stats 80 (.ok (some dfOutput)) = (.ok 81, 1) :=
  C8_get_disk_stats dfOutput dfLastLine ("/dev/sda1").toList
    ("102400000").toList ("80000000").toList ("22400000").toList
    (by decide) (by decide)

/-- C1 counterexample: a checkpoints directory containing the names
"a", "5" and "zz" after the copy.  The deletion filter keeps every name
whose parsed height is 0 ("zz" does not parse in base 16), so two
subdirectories remain, not exactly one. -/
theorem C1_counterexample :
    archive_state_prune (some c1CexNames)
      = Except.ok [("a").toList, ("zz").toList]
    ∧ ([("a").toList, ("zz").toList] : List (List Char)).length ≠ 1 :=
  ⟨rfl, by decide⟩

/-- C1 (amended): after a successful `archive_state`, exactly the
subdirectories whose base-16 height is 0 or equal to the maximum remain;
in particular, when every checkpoint subdirectory name parses to a nonzero
base-16 height and no two names parse to the same height, exactly one
subdirectory remains and its height is the maximum height present
immediately after copying. -/
theorem C1_archive_prune_amended (names : List (List Char))
    (hne : names ≠ [])
    (hnz : ∀ n ∈ names, height_from_name 16 n ≠ 0)
    (hinj : (names.map (height_from_name 16)).Nodup) :
    (archive_state_prune (some names)).map (List.map (height_from_name 16))
      = Except.ok [last_dir_height names 16] := by
  have hfold := last_dir_height_eq_foldl names 16
  have hmapne : names.map (height_from_name 16) ≠ [] := by
    intro h
    exact hne (List.map_eq_nil_iff.mp h)
  have hmem : last_dir_height names 16 ∈ names.map (height_from_name 16) := by
    rw [hfold]
    exact foldl_max_zero_mem _ hmapne
  have hM0 : last_dir_height names 16 ≠ 0 := by
    obtain ⟨n, hn, hEq⟩ := List.mem_map.mp hmem
    rw [← hEq]
    exact hnz n hn
  simp only [archive_state_prune]
  rw [if_neg hM0]
  have hcong : names.filter (fun n =>
        height_from_name 16 n == 0
        || height_from_name 16 n == last_dir_height names 16)
      = names.filter (fun n =>
        height_from_name 16 n == last_dir_height names 16) := by
    apply List.filter_congr
    intro x hx
    rw [beq_eq_false_iff_ne.mpr (hnz x hx), Bool.false_or]
  rw [hcong]
  obtain ⟨n0, hfilter, hfn⟩ :=
    filter_single_of_nodup_map names (height_from_name 16)
      (last_dir_height names 16) hinj hmem
  rw [hfilter]
  simp [Except.map, hfn]

/-- C1 witness: `C1_archive_prune_amended` at the names "1", "2", "3",
where pruning keeps exactly the single maximal checkpoint of height 3. -/
theorem C1_archive_prune_amended_witness :
    (archive_state_prune (some c1WitnessNames)).map
        (List.map (height_from_name 16))
      = Except.ok [3] := by
  have h := C1_archive_prune_amended c1WitnessNames (by decide) (by decide)
    (by decide)
  rw [h]
  rfl

/-- C9 counterexample: three empty spool version directories all have top
height 0, so `need_cold_storage_move` with `versions_hot = 2` is true while
the deduplicated top-height map has only one entry — fewer than
`versions_hot` — and `dir_heights.len() - versions_hot` underflows. -/
theorem C9_counterexample :
    need_cold_storage_move c9CexDirs 2 = true
    ∧ (dir_heights_map c9CexDirs).length < 2 :=
  ⟨rfl, by decide⟩

/-- C9 (amended): when the spool version directories have pairwise-distinct
top heights, `need_cold_storage_move` returning true guarantees that the
top-height map has at least `versions_hot` entries, so the subtraction
`dir_heights.len() - versions_hot` does not underflow. -/
theorem C9_no_underflow_amended (dirs : List SpoolVersionDir)
    (versionsHot : Nat)
    (hnd : (dirs.map fetch_top_height).Nodup)
    (hneed : need_cold_storage_move dirs versionsHot = true) :
    versionsHot ≤ (dir_heights_map dirs).length := by
  have hlen := dir_heights_map_length dirs hnd
  have hlt : versionsHot < dirs.length := by
    simpa [need_cold_storage_move] using hneed
  omega

/-- C9 witness: `C9_no_underflow_amended` at three spool directories with
distinct top heights and `versions_hot = 2`. -/
theorem C9_no_underflow_amended_witness :
    2 ≤ (dir_heights_map c3SpoolDirs).length :=
  C9_no_underflow_amended c3SpoolDirs 2 (by decide) (by decide)

/-- Helper for C10: a `download_binary` call that returns ok sends no
failure notification. -/
theorem download_binary_ok_eq (p : Bool) (a : List Bool)
    (h : (download_binary p a).1 = .ok ()) :
    download_binary p a = (.ok (), 0) := by
  by_cases hp : p
  · simp [download_binary, hp]
  · by_cases hf : firstSuccess (a.take 3)
    · simp [download_binary, hp, hf]
    · simp [download_binary, hp, hf] at h

/-- C10: when the three binaries are present or successfully downloaded and
node discovery returns at least one node, `download_binaries` returns ok
regardless of the outcomes of the 5 config remote-copy attempts; when all
5 attempts fail, `rsync_config` swallows the failure, leaving no config
file on disk and sending exactly one failure notification. -/
theorem C10_download_binaries_swallows_config_failure (env : BinEnv)
    (nodes : List Nat)
    (h1 : (download_binary env.replayPresent env.replayAttempts).1 = .ok ())
    (h2 : (download_binary env.launcherPresent env.launcherAttempts).1 = .ok ())
    (h3 : (download_binary env.sandboxPresent env.sandboxAttempts).1 = .ok ())
    (hcup : env.cupPresent = true)
    (hcfg : env.configPresent = false)
    (hnodes : env.nodesResult = .ok nodes)
    (hne : nodes ≠ []) :
    download_binaries env
      = some ⟨.ok (), (rsync_config env.configAttempts).configWritten,
          (rsync_config env.configAttempts).failureNotifs⟩
    ∧ (firstSuccess (env.configAttempts.take 5) = false →
        rsync_config env.configAttempts = ⟨false, 1⟩) := by
  have e1 := download_binary_ok_eq _ _ h1
  have e2 := download_binary_ok_eq _ _ h2
  have e3 := download_binary_ok_eq _ _ h3
  constructor
  · simp only [download_binaries, hcup, e1, e2, e3, hcfg, hnodes]
    cases nodes with
    | nil => exact absurd rfl hne
    | cons n t => simp [List.head?]
  · intro hfail
    simp [rsync_config, hfail]

/-- C10 witness: `C10_download_binaries_swallows_config_failure` at the
concrete environment `c10Env`, where all five config attempts fail: the
call still returns ok, with no config on disk and one failure
notification. -/
theorem C10_download_binaries_witness :
    download_binaries c10Env = some ⟨.ok (), false, 1⟩ := by
  have h := C10_download_binaries_swallows_config_failure c10Env [1]
    rfl rfl rfl rfl rfl rfl (by decide)
  exact h.1

/-- C2: with cold storage enabled and `daily_replays = 3`, when the
height-filtered archive map holds exactly 9 entries (their heights are
strictly ascending, as the final conjunct states), exactly the 1st, 4th and
7th entries in descending height order are copied to the cold-storage
states directory, while all 9 entries are moved to the trash directory and
the trash directory is removed at the end of the pass. -/
theorem C2_cold_storage_archive (names : List (List Char)) (maxH : Nat)
    (e1 e2 e3 e4 e5 e6 e7 e8 e9 : Nat × List Char)
    (hm : old_state_dirs names maxH = [e1, e2, e3, e4, e5, e6, e7, e8, e9]) :
    (archive_cold_phase names maxH 3 true).copiedToCold = [e9, e6, e3]
    ∧ (archive_cold_phase names maxH 3 true).movedToTrash
        = [e1, e2, e3, e4, e5, e6, e7, e8, e9]
    ∧ (archive_cold_phase names maxH 3 true).trashDirRemoved = true
    ∧ List.Pairwise (fun a b => a.1 < b.1)
        [e1, e2, e3, e4, e5, e6, e7, e8, e9] := by
  refine ⟨?_, ?_, ?_, ?_⟩
  · simp only [archive_cold_phase, hm, if_pos]
    simp [copyStride]
  · simp [archive_cold_phase, hm]
  · simp [archive_cold_phase, hm]
  · rw [← hm]
    exact old_state_dirs_pairwise names maxH

/-- C2 witness: `C2_cold_storage_archive` at nine archive directories with
heights 10, 20, ..., 90 and `max_height = 100`: heights 90, 60 and 30 are
copied, all nine entries are trashed, and the trash directory is removed. -/
theorem C2_cold_storage_archive_witness :
    (archive_cold_phase c2Names 100 3 true).copiedToCold
      = [(90, ("90").toList), (60, ("60").toList), (30, ("30").toList)]
    ∧ (archive_cold_phase c2Names 100 3 true).movedToTrash
      = [(10, ("10").toList), (20, ("20").toList), (30, ("30").toList),
         (40, ("40").toList), (50, ("50").toList), (60, ("60").toList),
         (70, ("70").toList), (80, ("80").toList), (90, ("90").toList)]
    ∧ (archive_cold_phase c2Names 100 3 true).trashDirRemoved = true := by
  have h := C2_cold_storage_archive c2Names 100
    (10, ("10").toList) (20, ("20").toList) (30, ("30").toList)
    (40, ("40").toList) (50, ("50").toList) (60, ("60").toList)
    (70, ("70").toList) (80, ("80").toList) (90, ("90").toList)
    (by decide)
  exact ⟨h.1, h.2.1, h.2.2.1⟩

/-- C3: with `N` spool version directories of pairwise-distinct top heights
and `versions_hot = k < N`, `do_move_cold_storage` moves exactly `N - k`
directories out of the spool — each moved entry's top height is smaller
than every retained entry's, and moved plus retained top heights are a
permutation of all the top heights — and the reported `max_height` is the
largest top height among the moved entries. -/
theorem C3_spool_migration (dirs : List SpoolVersionDir) (versionsHot : Nat)
    (hnd : (dirs.map fetch_top_height).Nodup)
    (hk : versionsHot < dirs.length) :
    (spool_cold_phase dirs versionsHot).1.length = dirs.length - versionsHot
    ∧ (∀ x ∈ (spool_cold_phase dirs versionsHot).1,
        ∀ y ∈ (dir_heights_map dirs).drop
            ((dir_heights_map dirs).length - versionsHot), x.1 < y.1)
    ∧ List.Perm
        ((spool_cold_phase dirs versionsHot).1.map Prod.fst
          ++ ((dir_heights_map dirs).drop
              ((dir_heights_map dirs).length - versionsHot)).map Prod.fst)
        (dirs.map fetch_top_height)
    ∧ (spool_cold_phase dirs versionsHot).2
        ∈ (spool_cold_phase dirs versionsHot).1.map Prod.fst
    ∧ (∀ x ∈ (spool_cold_phase dirs versionsHot).1,
        x.1 ≤ (spool_cold_phase dirs versionsHot).2) := by
  have hlen := dir_heights_map_length dirs hnd
  have hpw := dir_heights_map_pairwise dirs
  have hmoved : (spool_cold_phase dirs versionsHot).1
      = (dir_heights_map dirs).take
          ((dir_heights_map dirs).length - versionsHot) := rfl
  have hsplit := List.take_append_drop
    ((dir_heights_map dirs).length - versionsHot) (dir_heights_map dirs)
  have hlength : (spool_cold_phase dirs versionsHot).1.length
      = dirs.length - versionsHot := by
    rw [hmoved, List.length_take]
    omega
  have hcross : ∀ x ∈ (spool_cold_phase dirs versionsHot).1,
      ∀ y ∈ (dir_heights_map dirs).drop
          ((dir_heights_map dirs).length - versionsHot), x.1 < y.1 := by
    rw [hmoved]
    have hpw2 := hpw
    rw [← hsplit] at hpw2
    exact (List.pairwise_append.mp hpw2).2.2
  have hperm : List.Perm
      ((spool_cold_phase dirs versionsHot).1.map Prod.fst
        ++ ((dir_heights_map dirs).drop
            ((dir_heights_map dirs).length - versionsHot)).map Prod.fst)
      (dirs.map fetch_top_height) := by
    rw [hmoved, ← List.map_append, hsplit]
    exact dir_heights_map_keys_perm dirs hnd
  have hmovedne : (spool_cold_phase dirs versionsHot).1.map Prod.fst ≠ [] := by
    intro h
    have := congrArg List.length h
    rw [List.length_map, hlength] at this
    simp at this
    omega
  have hmax : (spool_cold_phase dirs versionsHot).2
      = ((spool_cold_phase dirs versionsHot).1.map Prod.fst).foldl max 0 := by
    rw [List.foldl_map]
    rfl
  refine ⟨hlength, hcross, hperm, ?_, ?_⟩
  · rw [hmax]
    exact foldl_max_zero_mem _ hmovedne
  · intro x hx
    rw [hmax]
    exact mem_le_foldl_max _ 0 x.1 (List.mem_map_of_mem Prod.fst hx)

/-- C3 witness: `C3_spool_migration` at three spool version directories
with top heights 5, 7, 9 and `versions_hot = 1`: two directories are moved
and the reported maximum is among the moved top heights. -/
theorem C3_spool_migration_witness :
    (spool_cold_phase c3SpoolDirs 1).1.length = c3SpoolDirs.length - 1
    ∧ (spool_cold_phase c3SpoolDirs 1).2
        ∈ (spool_cold_phase c3SpoolDirs 1).1.map Prod.fst := by
  have h := C3_spool_migration c3SpoolDirs 1 (by decide) (by decide)
  exact ⟨h.1, h.2.2.2.1⟩

end Backup
